import Mathlib

/-!
Verification of the OpenCSL governance subsystem: the approval workflow
engine (`registry/governance/approval_engine.py`), the audit logger
(`registry/governance/audit.py`) and the role-based access control
manager (`registry/governance/rbac.py`), shallowly embedded in Lean.

Python dictionaries are modelled as association lists with
last-insert-wins lookup; timestamps are modelled as integers (seconds);
the float `integrity_score` is modelled exactly over `ℚ`.
-/

namespace OpenCSL

/-! ## Association-list model of Python `dict` -/

def dictLookup {β : Type} (m : List (String × β)) (k : String) : Option β :=
  match m with
  | [] => none
  | (k', v) :: rest => if k' = k then some v else dictLookup rest k

def dictInsert {β : Type} (m : List (String × β)) (k : String) (v : β) :
    List (String × β) :=
  (k, v) :: m.filter (fun p => p.1 ≠ k)

def dictErase {β : Type} (m : List (String × β)) (k : String) :
    List (String × β) :=
  m.filter (fun p => p.1 ≠ k)

theorem dictLookup_insert_self {β : Type} (m : List (String × β)) (k : String) (v : β) :
    dictLookup (dictInsert m k v) k = some v := by
  simp [dictInsert, dictLookup]

theorem dictLookup_erase_self {β : Type} (m : List (String × β)) (k : String) :
    dictLookup (dictErase m k) k = none := by
  induction m with
  | nil => rfl
  | cons p rest ih =>
    by_cases h : p.1 = k
    · simpa [dictErase, dictLookup, h] using ih
    · simpa [dictErase, dictLookup, h] using ih

theorem mem_dictErase {β : Type} {m : List (String × β)} {k : String}
    {p : String × β} (h : p ∈ dictErase m k) : p ∈ m :=
  List.mem_of_mem_filter h

theorem mem_dictInsert {β : Type} {m : List (String × β)} {k : String} {v : β}
    {p : String × β} (h : p ∈ dictInsert m k v) : p = (k, v) ∨ p ∈ m := by
  rcases List.mem_cons.mp h with h' | h'
  · exact Or.inl h'
  · exact Or.inr (List.mem_of_mem_filter h')

theorem dictLookup_mem {β : Type} {m : List (String × β)} {k : String} {v : β}
    (h : dictLookup m k = some v) : (k, v) ∈ m := by
  induction m with
  | nil => simp [dictLookup] at h
  | cons p rest ih =>
    obtain ⟨a, b⟩ := p
    by_cases hk : a = k
    · subst hk
      simp only [dictLookup, if_true, eq_self_iff_true, Option.some.injEq] at h
      subst h
      exact List.mem_cons_self _ _
    · simp only [dictLookup, if_neg hk] at h
      exact List.mem_cons_of_mem _ (ih h)

/-! ## Data model (`registry/governance/models.py`) -/

/-- Embeds `ApprovalStatus(str, Enum)` from `models.py`. -/
inductive ApprovalStatus
  | pending
  | approved
  | rejected
  | changes_requested
deriving DecidableEq

/-- Embeds `ChangeType(str, Enum)` from `models.py`. -/
inductive ChangeType
  | create
  | update
  | delete
deriving DecidableEq

/-- Embeds `UserRole(str, Enum)` from `models.py`. -/
inductive UserRole
  | analyst
  | steward
  | admin
deriving DecidableEq

/-- Structured key-value payloads (`Dict[str, Any]`), modelled as string
key-value pairs: the governance core never inspects their values. -/
abbrev KVDict := List (String × String)

/-- Embeds `User` from `models.py`: `permissions` maps a resource/domain name to a
list of permission strings. -/
structure User where
  username : String
  email : String
  role : UserRole
  teams : List String
  permissions : List (String × List String)
deriving DecidableEq

/-- Embeds `SemanticChange` from `models.py`; `created_at` is an integer timestamp. -/
structure SemanticChange where
  id : String
  change_type : ChangeType
  metric_name : String
  old_definition : Option KVDict
  new_definition : KVDict
  author : String
  author_email : String
  created_at : Int
  description : String
  justification : String
  affected_adapters : List String
  breaking_change : Bool
deriving DecidableEq

/-- Embeds `ApprovalRequest` from `models.py` (lines 43-51). Note: the Python
model declares NO `created_at` field — this matters for
`cleanup_expired_approvals`. -/
structure ApprovalRequest where
  id : String
  change_id : String
  status : ApprovalStatus := ApprovalStatus.pending
  approver : Option String := none
  approved_at : Option Int := none
  comments : String := ""
  auto_approved : Bool := false
  approval_criteria : KVDict := []
deriving DecidableEq

/-- One auto-approval criterion: a Python dict that may or may not carry
each of the keys `change_type`, `breaking_change`, `owner` (`some` models
key present, `none` key absent). -/
structure Criteria where
  change_type : Option ChangeType
  breaking_change : Option Bool
  owner : Option (List String)
deriving DecidableEq

/-- Embeds `GovernancePolicy` from `models.py`, restricted to the fields the
approval engine reads. -/
structure GovernancePolicy where
  name : String
  description : String
  auto_approval_criteria : List Criteria
  required_approvers : Nat := 1
  steward_domains : List String := []
  notification_channels : List String := []
deriving DecidableEq

/-- Embeds `AuditEntry` from `models.py`; `timestamp` is an integer timestamp. -/
structure AuditEntry where
  id : String
  timestamp : Int
  user : String
  action : String
  resource_type : String
  resource_id : String
  details : KVDict
  ip_address : Option String := none
  user_agent : Option String := none
deriving DecidableEq

/-! ## Approval engine (`registry/governance/approval_engine.py`)

The engine's state is its three dictionaries (`pending_approvals`,
`policies`, `users`).  The audit logger and notifier are write-only
collaborators with no influence on the engine's state or return values,
so they are not part of the state.  `uuid.uuid4()` and `datetime.now()`
are modelled by passing the fresh id and the current time as arguments. -/

structure ApprovalEngine where
  pending_approvals : List (String × ApprovalRequest)
  policies : List (String × GovernancePolicy)
  users : List (String × User)
deriving DecidableEq

/-- Errors raised by the engine: `ValueError` for a missing approval id
(the spec's NotFound) and `PermissionError` (the spec's PermissionDenied). -/
inductive GovError
  | NotFound
  | PermissionDenied
deriving DecidableEq

/-- Embeds `ApprovalEngine._matches_criteria` (lines 166-181): each key the
criteria dict carries must equal the change's attribute (`owner` is a
collection that must contain the author); absent keys are wildcards. -/
def matches_criteria (change : SemanticChange) (criteria : Criteria) : Bool :=
  (match criteria.change_type with
   | some ct => change.change_type = ct
   | none => true) &&
  (match criteria.breaking_change with
   | some b => change.breaking_change = b
   | none => true) &&
  (match criteria.owner with
   | some owners => change.author ∈ owners
   | none => true)

/-- Embeds `ApprovalEngine._check_auto_approval` (lines 127-150). -/
def check_auto_approval (engine : ApprovalEngine) (change : SemanticChange)
    (user : User) : Bool :=
  if change.breaking_change then false
  else if user.role = UserRole.admin then true
  else if change.change_type = ChangeType.update && !change.breaking_change &&
          change.author = user.username then true
  else engine.policies.any fun p =>
    p.2.auto_approval_criteria.any fun criteria => matches_criteria change criteria

/-- Embeds `ApprovalEngine._can_approve` (lines 152-164): admins and stewards
always pass (the steward domain check is a TODO in the source), analysts
never do. -/
def can_approve (user : User) (_approval : ApprovalRequest) : Bool :=
  if user.role = UserRole.admin then true
  else if user.role = UserRole.steward then true
  else false

/-- Embeds `ApprovalEngine.submit_change` (lines 26-61).  `freshId` stands for
`str(uuid.uuid4())` and `now` for `datetime.now()`.  Returns the
constructed request and the updated engine state. -/
def submit_change (engine : ApprovalEngine) (freshId : String) (now : Int)
    (change : SemanticChange) (requesting_user : User) :
    ApprovalRequest × ApprovalEngine :=
  let auto_approved := check_auto_approval engine change requesting_user
  let approval_request : ApprovalRequest :=
    { id := freshId
      change_id := change.id
      status := if auto_approved then ApprovalStatus.approved else ApprovalStatus.pending
      auto_approved := auto_approved }
  if auto_approved then
    ({ approval_request with
        approver := some "system"
        approved_at := some now
        comments := "Auto-approved based on governance policy" },
     engine)
  else
    (approval_request,
     { engine with
        pending_approvals :=
          dictInsert engine.pending_approvals approval_request.id approval_request })

/-- Embeds `ApprovalEngine.approve_change` (lines 63-95). -/
def approve_change (engine : ApprovalEngine) (now : Int) (approval_id : String)
    (approver : User) (comments : String) :
    Except GovError (ApprovalRequest × ApprovalEngine) :=
  match dictLookup engine.pending_approvals approval_id with
  | none => Except.error GovError.NotFound
  | some approval =>
    if !can_approve approver approval then Except.error GovError.PermissionDenied
    else
      let approval := { approval with
        status := ApprovalStatus.approved
        approver := some approver.username
        approved_at := some now
        comments := comments }
      Except.ok (approval,
        { engine with
            pending_approvals := dictErase engine.pending_approvals approval_id })

/-- Embeds `ApprovalEngine.reject_change` (lines 97-125). -/
def reject_change (engine : ApprovalEngine) (now : Int) (approval_id : String)
    (approver : User) (reason : String) :
    Except GovError (ApprovalRequest × ApprovalEngine) :=
  match dictLookup engine.pending_approvals approval_id with
  | none => Except.error GovError.NotFound
  | some approval =>
    if !can_approve approver approval then Except.error GovError.PermissionDenied
    else
      let approval := { approval with
        status := ApprovalStatus.rejected
        approver := some approver.username
        approved_at := some now
        comments := reason }
      Except.ok (approval,
        { engine with
            pending_approvals := dictErase engine.pending_approvals approval_id })

/-- Embeds `ApprovalEngine.get_pending_approvals` (lines 232-234). -/
def get_pending_approvals (engine : ApprovalEngine) : List ApprovalRequest :=
  engine.pending_approvals.map (fun p => p.2)

/-- Python's `getattr(approval, 'created_at', None)` view of an
`ApprovalRequest`: the model (models.py lines 43-51) declares no
`created_at` field, so the dynamic attribute lookup finds nothing on any
instance and `hasattr(approval, 'created_at')` is false. -/
def created_at_attr (_ : ApprovalRequest) : Option Int := none

/-- Embeds `ApprovalEngine.cleanup_expired_approvals` (lines 236-250): collects
the pending ids whose `created_at` attribute exists and predates
`now - max_age_days` (the attribute never exists, see `created_at_attr`),
deletes them, and returns how many were deleted. -/
def cleanup_expired_approvals (engine : ApprovalEngine) (now : Int)
    (max_age_days : Int) : Nat × ApprovalEngine :=
  let cutoff := now - max_age_days * 86400
  let expired := (engine.pending_approvals.filter fun p =>
    match created_at_attr p.2 with
    | some t => decide (t < cutoff)
    | none => false).map (fun p => p.1)
  (expired.length,
   { engine with
      pending_approvals :=
        expired.foldl (fun m k => dictErase m k) engine.pending_approvals })

/-! ## Access control (`registry/governance/rbac.py`) -/

/-- Embeds `Permission(str, Enum)` from `rbac.py`. -/
inductive Permission
  | read
  | write
  | approve
  | delete
  | admin
deriving DecidableEq

/-- Embeds `Resource(str, Enum)` from `rbac.py`. -/
inductive Resource
  | metric
  | dimension
  | adapter
  | approval
  | audit
  | user
deriving DecidableEq

/-- The static `role_permissions` table built in
`AccessControlManager.__init__` (rbac.py lines 34-55); `none` models a
resource key absent from the role's dict. -/
def role_permissions (role : UserRole) (resource : Resource) :
    Option (List Permission) :=
  match role, resource with
  | UserRole.analyst, Resource.metric => some [Permission.read]
  | UserRole.analyst, Resource.dimension => some [Permission.read]
  | UserRole.analyst, Resource.adapter => some [Permission.read]
  | UserRole.analyst, _ => none
  | UserRole.steward, Resource.metric =>
      some [Permission.read, Permission.write, Permission.approve]
  | UserRole.steward, Resource.dimension =>
      some [Permission.read, Permission.write, Permission.approve]
  | UserRole.steward, Resource.adapter => some [Permission.read, Permission.write]
  | UserRole.steward, Resource.approval => some [Permission.read, Permission.write]
  | UserRole.steward, Resource.audit => some [Permission.read]
  | UserRole.steward, _ => none
  | UserRole.admin, Resource.metric =>
      some [Permission.read, Permission.write, Permission.approve,
            Permission.delete, Permission.admin]
  | UserRole.admin, Resource.dimension =>
      some [Permission.read, Permission.write, Permission.approve,
            Permission.delete, Permission.admin]
  | UserRole.admin, Resource.adapter =>
      some [Permission.read, Permission.write, Permission.delete, Permission.admin]
  | UserRole.admin, Resource.approval =>
      some [Permission.read, Permission.write, Permission.approve,
            Permission.delete, Permission.admin]
  | UserRole.admin, Resource.audit => some [Permission.read, Permission.admin]
  | UserRole.admin, Resource.user =>
      some [Permission.read, Permission.write, Permission.delete, Permission.admin]

/-- The string each `Resource` enum member carries (`resource.value`). -/
def Resource.value : Resource → String
  | Resource.metric => "metric"
  | Resource.dimension => "dimension"
  | Resource.adapter => "adapter"
  | Resource.approval => "approval"
  | Resource.audit => "audit"
  | Resource.user => "user"

/-- The string each `Permission` enum member carries (`permission.value`). -/
def Permission.value : Permission → String
  | Permission.read => "read"
  | Permission.write => "write"
  | Permission.approve => "approve"
  | Permission.delete => "delete"
  | Permission.admin => "admin"

/-- State of `AccessControlManager` (rbac.py lines 28-31). -/
structure AccessControlManager where
  users : List (String × User)
  domain_stewards : List (String × List String)
  metric_domains : List (String × String)
deriving DecidableEq

/-- Embeds `AccessControlManager._check_domain_access` (rbac.py lines 112-134).
Python's `if not domain:` is truthiness on a string, so an empty-string
domain also short-circuits to allow. -/
def check_domain_access (m : AccessControlManager) (user : User)
    (resource_id : String) : Bool :=
  if user.role = UserRole.admin then true
  else
    match dictLookup m.metric_domains resource_id with
    | none => true
    | some domain =>
      if domain = "" then true
      else if domain ∈ user.teams then true
      else
        match dictLookup m.domain_stewards domain with
        | some stewards => user.username ∈ stewards
        | none => false

/-- Embeds `AccessControlManager.check_permission` (rbac.py lines 79-110).
Python's `and resource_id` is truthiness, so `None` and `""` both skip
the domain check.  The trailing custom-permission lookup returns `True`
on both of its branches, exactly as the source does. -/
def check_permission (m : AccessControlManager) (username : String)
    (resource : Resource) (permission : Permission)
    (resource_id : Option String) : Bool :=
  match dictLookup m.users username with
  | none => false
  | some user =>
    match role_permissions user.role resource with
    | none => false
    | some perms =>
      if permission ∉ perms then false
      else if (resource = Resource.metric ∨ resource = Resource.dimension) &&
              (resource_id.getD "" ≠ "") then
        check_domain_access m user (resource_id.getD "")
      else
        match dictLookup user.permissions resource.value with
        | some user_perms =>
          if permission.value ∈ user_perms then true else true
        | none => true

/-! ## Audit logger (`registry/governance/audit.py`)

The persisted log is a list of lines.  Each consumer runs a line through
a `try` block whose `except` clause names only SOME exception types, so
a line has three possible behaviors in a given consumer: it produces a
value, it raises an exception the consumer's handler catches, or it
raises an exception of a type the handler does not list, which
propagates and aborts the whole call. -/

/-- Behavior of one line inside a consumer's `try` block: `ok` when the
body succeeds, `caught` when it raises an exception type listed in the
consumer's `except` clause, `uncaught` when it raises any other
exception, which propagates out of the consumer. -/
inductive ParseOutcome (α : Type)
  | ok (a : α)
  | caught
  | uncaught
deriving DecidableEq

/-- The exception that escapes a scan when a line's behavior is
`ParseOutcome.uncaught`. -/
inductive PyError
  | uncaught
deriving DecidableEq

/-- One line of the log, abstracted to its behavior in each consumer.

`entry` is the behavior of `json.loads(line)` then `AuditEntry(**data)`
under `get_audit_trail`'s handler, which catches ONLY
`json.JSONDecodeError` (audit.py line 164): `caught` models a line that
is not valid JSON; `uncaught` models a line that is valid JSON but fails
`AuditEntry` construction (pydantic ValidationError, or TypeError when
the JSON value is not a mapping), which the handler does not catch.

`timestamp` is the behavior of `json.loads(line)` then
`datetime.fromisoformat(data["timestamp"])` under `verify_integrity`'s
handler, which catches `(json.JSONDecodeError, KeyError, ValueError)`
(audit.py line 247): `caught` models invalid JSON, a missing
`"timestamp"` key or a bad timestamp string; `uncaught` models e.g. the
TypeError from indexing a non-dict JSON value or from passing a
non-string to `fromisoformat`, which that handler does not catch. -/
structure LogLine where
  entry : ParseOutcome AuditEntry
  timestamp : ParseOutcome Int
deriving DecidableEq

/-- The filter arguments of `get_audit_trail`; `none` models an argument
left at its `None` default.  `limit` is a Python `int`. -/
structure TrailQuery where
  start_date : Option Int := none
  end_date : Option Int := none
  user : Option String := none
  resource_type : Option String := none
  action : Option String := none
  limit : Int := 1000
deriving DecidableEq

/-- The filter block of `get_audit_trail` (audit.py lines 148-157): an
entry survives all five `continue` guards.  Python guards of the form
`if user and entry.user != user` use string truthiness, so a supplied
empty-string filter never rejects; datetimes are always truthy. -/
def passes_filters (q : TrailQuery) (e : AuditEntry) : Bool :=
  (match q.start_date with
   | some s => !(decide (e.timestamp < s))
   | none => true) &&
  (match q.end_date with
   | some t => !(decide (e.timestamp > t))
   | none => true) &&
  (match q.user with
   | some u => u = "" || e.user = u
   | none => true) &&
  (match q.resource_type with
   | some r => r = "" || e.resource_type = r
   | none => true) &&
  (match q.action with
   | some a => a = "" || e.action = a
   | none => true)

/-- Loop of `get_audit_trail` (audit.py lines 141-166): scan lines; a
line raising `json.JSONDecodeError` is skipped by the `continue` in the
handler, a line raising anything else propagates and aborts the call;
entries passing every filter are kept, and the loop breaks once
`len(entries) >= limit` — the length test runs after the append. -/
def audit_trail_loop (q : TrailQuery) : List LogLine → List AuditEntry →
    Except PyError (List AuditEntry)
  | [], acc => Except.ok acc.reverse
  | line :: rest, acc =>
    match line.entry with
    | ParseOutcome.caught => audit_trail_loop q rest acc
    | ParseOutcome.uncaught => Except.error PyError.uncaught
    | ParseOutcome.ok e =>
      if passes_filters q e then
        let acc' := e :: acc
        if (acc'.length : Int) ≥ q.limit then Except.ok acc'.reverse
        else audit_trail_loop q rest acc'
      else audit_trail_loop q rest acc

/-- Embeds `AuditLogger.get_audit_trail` (audit.py lines 128-167); an
`Except.error` result models the call aborting with an uncaught
exception. -/
def get_audit_trail (log : List LogLine) (q : TrailQuery) :
    Except PyError (List AuditEntry) :=
  audit_trail_loop q log []

/-- Running counters of the `verify_integrity` scan. -/
structure IntegrityState where
  total : Nat
  corrupted : Nat
  earliest : Option Int
  latest : Option Int
deriving DecidableEq

/-- One iteration of the `verify_integrity` loop (audit.py lines
236-248): count the line, then record its timestamp bounds on success,
count it as corrupted when it raises one of the caught exception types
`(json.JSONDecodeError, KeyError, ValueError)`, and propagate any other
exception, aborting the scan. -/
def integrity_step (s : IntegrityState) (line : LogLine) :
    Except PyError IntegrityState :=
  match line.timestamp with
  | ParseOutcome.uncaught => Except.error PyError.uncaught
  | ParseOutcome.caught =>
    Except.ok { s with total := s.total + 1, corrupted := s.corrupted + 1 }
  | ParseOutcome.ok t =>
    Except.ok
      { s with
          total := s.total + 1
          earliest := some (match s.earliest with
            | none => t
            | some e => if t < e then t else e)
          latest := some (match s.latest with
            | none => t
            | some l => if t > l then t else l) }

/-- The line scan of `verify_integrity`: thread the counters through the
lines, stopping at the first line whose exception is not caught. -/
def integrity_scan : List LogLine → IntegrityState →
    Except PyError IntegrityState
  | [], s => Except.ok s
  | line :: rest, s =>
    match integrity_step s line with
    | Except.error e => Except.error e
    | Except.ok s' => integrity_scan rest s'

/-- The report returned by `verify_integrity`; the Python float score is
modelled exactly over `ℚ`. -/
structure IntegrityReport where
  total_entries : Nat
  corrupted_entries : Nat
  integrity_score : ℚ
  earliest : Option Int
  latest : Option Int
deriving DecidableEq

/-- Embeds `AuditLogger.verify_integrity` (audit.py lines 227-261): scan
every line, then `integrity_score = (total - corrupted) / total` guarded
by `if total_entries > 0 else 0`; an `Except.error` result models the
scan aborting with an uncaught exception. -/
def verify_integrity (log : List LogLine) : Except PyError IntegrityReport :=
  match integrity_scan log ⟨0, 0, none, none⟩ with
  | Except.error e => Except.error e
  | Except.ok s =>
    Except.ok
      { total_entries := s.total
        corrupted_entries := s.corrupted
        integrity_score :=
          if s.total > 0 then ((s.total : ℚ) - (s.corrupted : ℚ)) / (s.total : ℚ)
          else 0
        earliest := s.earliest
        latest := s.latest }

/-! ## Reference definitions written from the specification's words -/

/-- Spec §4.1: "a criterion matches when every key it specifies
(`change_type`, `breaking_change`, `owner`) equals (or, for `owner`,
contains) the corresponding change attribute; unspecified keys are
wildcards". -/
def criterion_matches_spec (change : SemanticChange) (c : Criteria) : Prop :=
  (∀ ct ∈ c.change_type, change.change_type = ct) ∧
  (∀ b ∈ c.breaking_change, change.breaking_change = b) ∧
  (∀ ow ∈ c.owner, change.author ∈ ow)

/-- Spec §4.1 auto-approval decision, clauses 1-5 in order: breaking
changes never auto-approve; admins always do; self-service non-breaking
updates do; otherwise any active policy with any matching criterion does;
otherwise pending. -/
def auto_approval_spec (policies : List (String × GovernancePolicy))
    (change : SemanticChange) (user : User) : Prop :=
  if change.breaking_change then False
  else if user.role = UserRole.admin then True
  else if change.change_type = ChangeType.update ∧ change.breaking_change = false ∧
          change.author = user.username then True
  else ∃ p ∈ policies, ∃ c ∈ p.2.auto_approval_criteria, criterion_matches_spec change c

theorem matches_criteria_iff_spec (change : SemanticChange) (c : Criteria) :
    matches_criteria change c = true ↔ criterion_matches_spec change c := by
  obtain ⟨ct?, b?, ow?⟩ := c
  cases ct? <;> cases b? <;> cases ow? <;>
    simp [matches_criteria, criterion_matches_spec, Option.mem_def, and_assoc]

/-! ## Sample data for concrete evaluations -/

def alice : User :=
  { username := "alice", email := "alice@x.io", role := UserRole.analyst,
    teams := [], permissions := [] }

def bob : User :=
  { username := "bob", email := "bob@x.io", role := UserRole.steward,
    teams := ["finance"], permissions := [] }

def carol : User :=
  { username := "carol", email := "carol@x.io", role := UserRole.admin,
    teams := [], permissions := [] }

def sampleChange : SemanticChange :=
  { id := "ch1", change_type := ChangeType.update, metric_name := "revenue",
    old_definition := none, new_definition := [], author := "alice",
    author_email := "alice@x.io", created_at := 0, description := "d",
    justification := "j", affected_adapters := [], breaking_change := false }

def breakingChange : SemanticChange :=
  { sampleChange with
    id := "ch2"
    change_type := ChangeType.delete
    breaking_change := true }

def pendingReq : ApprovalRequest := { id := "ap1", change_id := "ch2" }

def sampleEngine : ApprovalEngine :=
  { pending_approvals := [("ap1", pendingReq)], policies := [], users := [] }

/-! ## Claim theorems -/

/-- C1: the auto-approval decision computed by
`ApprovalEngine._check_auto_approval` is a pure function of the change,
the requesting user and the active policies, and coincides with the
spec's five-clause reference decision (breaking never; admin always;
non-breaking self-update always; else any active policy's any criterion
matching, with unspecified criterion keys as wildcards; else pending). -/
theorem auto_approval_decision_spec (engine : ApprovalEngine)
    (change : SemanticChange) (user : User) :
    check_auto_approval engine change user = true ↔
      auto_approval_spec engine.policies change user := by
  unfold check_auto_approval auto_approval_spec
  cases hb : change.breaking_change with
  | true => simp [hb]
  | false =>
    by_cases hr : user.role = UserRole.admin
    · simp [hb, hr]
    · by_cases h1 : change.change_type = ChangeType.update
      · by_cases h2 : change.author = user.username
        · simp [hb, hr, h1, h2]
        · simp [hb, hr, h1, h2, List.any_eq_true, matches_criteria_iff_spec]
      · simp [hb, hr, h1, List.any_eq_true, matches_criteria_iff_spec]

theorem check_auto_approval_of_breaking (engine : ApprovalEngine)
    (change : SemanticChange) (user : User) (hb : change.breaking_change = true) :
    check_auto_approval engine change user = false := by
  simp [check_auto_approval, hb]

theorem check_auto_approval_of_admin (engine : ApprovalEngine)
    (change : SemanticChange) (user : User) (hb : change.breaking_change = false)
    (hr : user.role = UserRole.admin) :
    check_auto_approval engine change user = true := by
  simp [check_auto_approval, hb, hr]

/-- C2: `submit_change` returns an already-approved request attributed to
the synthetic approver "system", timestamped now, with the fixed comment,
and leaves the engine state untouched when the auto-approval decision is
true; otherwise it returns a pending, not-auto-approved request inserted
into the pending table keyed by its id.  Consequently an admin's
submission is approved with `auto_approved = true`, except a breaking
change, which is pending. -/
theorem submit_change_spec (engine : ApprovalEngine) (freshId : String)
    (now : Int) (change : SemanticChange) (user : User) :
    (check_auto_approval engine change user = true →
      (submit_change engine freshId now change user).1.status =
          ApprovalStatus.approved ∧
        (submit_change engine freshId now change user).1.auto_approved = true ∧
        (submit_change engine freshId now change user).1.approver = some "system" ∧
        (submit_change engine freshId now change user).1.approved_at = some now ∧
        (submit_change engine freshId now change user).1.comments =
          "Auto-approved based on governance policy" ∧
        (submit_change engine freshId now change user).2 = engine) ∧
    (check_auto_approval engine change user = false →
      (submit_change engine freshId now change user).1.status =
          ApprovalStatus.pending ∧
        (submit_change engine freshId now change user).1.auto_approved = false ∧
        (submit_change engine freshId now change user).2.pending_approvals =
          dictInsert engine.pending_approvals
            (submit_change engine freshId now change user).1.id
            (submit_change engine freshId now change user).1 ∧
        dictLookup (submit_change engine freshId now change user).2.pending_approvals
            (submit_change engine freshId now change user).1.id =
          some (submit_change engine freshId now change user).1) ∧
    (user.role = UserRole.admin → change.breaking_change = false →
      (submit_change engine freshId now change user).1.status =
          ApprovalStatus.approved ∧
        (submit_change engine freshId now change user).1.auto_approved = true) ∧
    (change.breaking_change = true →
      (submit_change engine freshId now change user).1.status =
          ApprovalStatus.pending ∧
        (submit_change engine freshId now change user).1.auto_approved = false) := by
  cases hauto : check_auto_approval engine change user with
  | true =>
    refine ⟨fun _ => ?_, fun hcon => absurd hcon (by simp), fun _ _ => ?_,
      fun hb => ?_⟩
    · simp [submit_change, hauto]
    · simp [submit_change, hauto]
    · rw [check_auto_approval_of_breaking engine change user hb] at hauto
      exact absurd hauto (by simp)
  | false =>
    refine ⟨fun hcon => absurd hcon (by simp), fun _ => ?_, fun hr hb => ?_,
      fun _ => ?_⟩
    · refine ⟨by simp [submit_change, hauto], by simp [submit_change, hauto],
        by simp [submit_change, hauto], ?_⟩
      simp [submit_change, hauto, dictLookup_insert_self]
    · rw [check_auto_approval_of_admin engine change user hb hr] at hauto
      exact absurd hauto (by simp)
    · simp [submit_change, hauto]

/-- Witness for C2: submitting a non-breaking change as the admin user is
auto-approved by the system approver. -/
theorem submit_change_spec_witness :
    (submit_change sampleEngine "ap2" 5 sampleChange carol).1.status =
        ApprovalStatus.approved ∧
      (submit_change sampleEngine "ap2" 5 sampleChange carol).1.auto_approved = true ∧
      (submit_change sampleEngine "ap2" 5 sampleChange carol).1.approver = some "system" ∧
      (submit_change sampleEngine "ap2" 5 sampleChange carol).1.approved_at = some 5 ∧
      (submit_change sampleEngine "ap2" 5 sampleChange carol).1.comments =
        "Auto-approved based on governance policy" ∧
      (submit_change sampleEngine "ap2" 5 sampleChange carol).2 = sampleEngine :=
  (submit_change_spec sampleEngine "ap2" 5 sampleChange carol).1 (by decide)

/-- C3: on a pending approval id, `approve_change` raises
PermissionDenied exactly for analyst approvers; admins and stewards pass
with no domain restriction, and the success path returns the request
approved, attributed and timestamped, with the comments stored, and the
id gone from the pending table. -/
theorem approve_change_spec (engine : ApprovalEngine) (now : Int)
    (approval_id : String) (approver : User) (comments : String)
    (req : ApprovalRequest)
    (h : dictLookup engine.pending_approvals approval_id = some req) :
    (approver.role = UserRole.analyst →
      approve_change engine now approval_id approver comments =
        Except.error GovError.PermissionDenied) ∧
    (approver.role ≠ UserRole.analyst →
      approve_change engine now approval_id approver comments =
        Except.ok
          ({ req with
              status := ApprovalStatus.approved
              approver := some approver.username
              approved_at := some now
              comments := comments },
           { engine with
              pending_approvals := dictErase engine.pending_approvals approval_id }) ∧
      dictLookup (dictErase engine.pending_approvals approval_id) approval_id =
        none) := by
  constructor
  · intro hr
    simp [approve_change, h, can_approve, hr]
  · intro hr
    have hca : can_approve approver req = true := by
      cases hrole : approver.role with
      | analyst => exact absurd hrole hr
      | steward => simp [can_approve, hrole]
      | admin => simp [can_approve, hrole]
    refine ⟨?_, dictLookup_erase_self _ _⟩
    simp [approve_change, h, hca]

/-- Witness for C3: the steward approves the pending breaking change. -/
theorem approve_change_spec_witness :
    approve_change sampleEngine 7 "ap1" bob "reviewed" =
        Except.ok
          ({ pendingReq with
              status := ApprovalStatus.approved
              approver := some bob.username
              approved_at := some 7
              comments := "reviewed" },
           { sampleEngine with
              pending_approvals := dictErase sampleEngine.pending_approvals "ap1" }) ∧
      dictLookup (dictErase sampleEngine.pending_approvals "ap1") "ap1" = none :=
  (approve_change_spec sampleEngine 7 "ap1" bob "reviewed" pendingReq
    (by decide)).2 (by decide)

theorem approve_change_ok_state {engine : ApprovalEngine} {now : Int}
    {approval_id : String} {approver : User} {comments : String}
    {req : ApprovalRequest} {engine' : ApprovalEngine}
    (h : approve_change engine now approval_id approver comments =
      Except.ok (req, engine')) :
    engine'.pending_approvals = dictErase engine.pending_approvals approval_id := by
  cases hl : dictLookup engine.pending_approvals approval_id with
  | none => simp [approve_change, hl] at h
  | some a =>
    cases hc : can_approve approver a with
    | false => simp [approve_change, hl, hc] at h
    | true =>
      simp only [approve_change, hl, hc, Bool.not_true, Bool.false_eq_true,
        if_false, Except.ok.injEq, Prod.mk.injEq] at h
      obtain ⟨-, he⟩ := h
      subst he
      rfl

theorem reject_change_ok_state {engine : ApprovalEngine} {now : Int}
    {approval_id : String} {approver : User} {reason : String}
    {req : ApprovalRequest} {engine' : ApprovalEngine}
    (h : reject_change engine now approval_id approver reason =
      Except.ok (req, engine')) :
    engine'.pending_approvals = dictErase engine.pending_approvals approval_id := by
  cases hl : dictLookup engine.pending_approvals approval_id with
  | none => simp [reject_change, hl] at h
  | some a =>
    cases hc : can_approve approver a with
    | false => simp [reject_change, hl, hc] at h
    | true =>
      simp only [reject_change, hl, hc, Bool.not_true, Bool.false_eq_true,
        if_false, Except.ok.injEq, Prod.mk.injEq] at h
      obtain ⟨-, he⟩ := h
      subst he
      rfl

/-- C4: on an approval id absent from the pending table — in particular
on an id whose request was already approved or rejected — both
`approve_change` and `reject_change` fail with NotFound, for every
approver, comment and reason. -/
theorem decide_on_absent_id_not_found (engine : ApprovalEngine)
    (now now2 : Int) (approval_id : String) (u1 u2 : User)
    (c1 c2 r1 r2 : String) :
    (dictLookup engine.pending_approvals approval_id = none →
      approve_change engine now approval_id u1 c1 =
          Except.error GovError.NotFound ∧
        reject_change engine now approval_id u1 r1 =
          Except.error GovError.NotFound) ∧
    (∀ req engine',
      approve_change engine now approval_id u1 c1 = Except.ok (req, engine') →
      approve_change engine' now2 approval_id u2 c2 =
          Except.error GovError.NotFound ∧
        reject_change engine' now2 approval_id u2 r2 =
          Except.error GovError.NotFound) ∧
    (∀ req engine',
      reject_change engine now approval_id u1 r1 = Except.ok (req, engine') →
      approve_change engine' now2 approval_id u2 c2 =
          Except.error GovError.NotFound ∧
        reject_change engine' now2 approval_id u2 r2 =
          Except.error GovError.NotFound) := by
  refine ⟨fun hnone => ⟨?_, ?_⟩, fun req engine' hok => ?_, fun req engine' hok => ?_⟩
  · simp [approve_change, hnone]
  · simp [reject_change, hnone]
  · have hp := approve_change_ok_state hok
    have hnone : dictLookup engine'.pending_approvals approval_id = none := by
      rw [hp]
      exact dictLookup_erase_self _ _
    exact ⟨by simp [approve_change, hnone], by simp [reject_change, hnone]⟩
  · have hp := reject_change_ok_state hok
    have hnone : dictLookup engine'.pending_approvals approval_id = none := by
      rw [hp]
      exact dictLookup_erase_self _ _
    exact ⟨by simp [approve_change, hnone], by simp [reject_change, hnone]⟩

/-- Witness for C4: deciding an id that is not in the (empty) pending
table fails with NotFound for both operations. -/
theorem decide_on_absent_id_not_found_witness :
    approve_change { pending_approvals := [], policies := [], users := [] } 0
        "zz" carol "" = Except.error GovError.NotFound ∧
      reject_change { pending_approvals := [], policies := [], users := [] } 0
        "zz" carol "bad" = Except.error GovError.NotFound :=
  (decide_on_absent_id_not_found
    { pending_approvals := [], policies := [], users := [] } 0 0 "zz" carol carol
    "" "" "bad" "").1 (by decide)

/-- The pending-table invariant: every request stored in the pending
table has status `pending`. -/
def pending_inv (engine : ApprovalEngine) : Prop :=
  ∀ p ∈ engine.pending_approvals, p.2.status = ApprovalStatus.pending

instance (engine : ApprovalEngine) : Decidable (pending_inv engine) :=
  List.decidableBAll _ _

theorem mem_foldl_dictErase {β : Type} (ks : List String) :
    ∀ (m : List (String × β)) (p : String × β),
      p ∈ ks.foldl (fun m k => dictErase m k) m → p ∈ m := by
  induction ks with
  | nil =>
    intro m p hp
    simpa using hp
  | cons k rest ih =>
    intro m p hp
    exact mem_dictErase (ih (dictErase m k) p hp)

/-- C5: every engine operation preserves the invariant that all requests
stored in the pending table are in status `pending`; consequently a
request in state `approved` or `rejected` never appears in
`get_pending_approvals` output. -/
theorem pending_table_invariant (engine : ApprovalEngine) (freshId : String)
    (now d : Int) (change : SemanticChange) (user approver : User)
    (comments reason approval_id : String) :
    (pending_inv engine →
      pending_inv (submit_change engine freshId now change user).2) ∧
    (pending_inv engine → ∀ req engine',
      approve_change engine now approval_id approver comments =
        Except.ok (req, engine') →
      pending_inv engine') ∧
    (pending_inv engine → ∀ req engine',
      reject_change engine now approval_id approver reason =
        Except.ok (req, engine') →
      pending_inv engine') ∧
    (pending_inv engine →
      pending_inv (cleanup_expired_approvals engine now d).2) ∧
    (pending_inv engine → ∀ r ∈ get_pending_approvals engine,
      r.status ≠ ApprovalStatus.approved ∧ r.status ≠ ApprovalStatus.rejected) := by
  refine ⟨fun hinv => ?_, fun hinv req engine' hok => ?_,
    fun hinv req engine' hok => ?_, fun hinv => ?_, fun hinv r hr => ?_⟩
  · cases hauto : check_auto_approval engine change user with
    | true =>
      intro p hp
      rw [submit_change] at hp
      simp only [hauto, if_true] at hp
      exact hinv p hp
    | false =>
      intro p hp
      rw [submit_change] at hp
      simp only [hauto, if_false] at hp
      rcases mem_dictInsert hp with h | h
      · rw [h]
        simp
      · exact hinv p h
  · intro p hp
    rw [approve_change_ok_state hok] at hp
    exact hinv p (mem_dictErase hp)
  · intro p hp
    rw [reject_change_ok_state hok] at hp
    exact hinv p (mem_dictErase hp)
  · intro p hp
    rw [cleanup_expired_approvals] at hp
    exact hinv p (mem_foldl_dictErase _ _ _ hp)
  · rw [get_pending_approvals] at hr
    rcases List.mem_map.mp hr with ⟨p, hp, hpr⟩
    have := hinv p hp
    rw [hpr] at this
    rw [this]
    exact ⟨by simp, by simp⟩

/-- Witness for C5: on the sample engine, the invariant holds and is
preserved by a submission. -/
theorem pending_table_invariant_witness :
    pending_inv (submit_change sampleEngine "ap9" 0 sampleChange bob).2 :=
  (pending_table_invariant sampleEngine "ap9" 0 0 sampleChange bob bob
    "" "" "ap1").1 (by decide)

/-- C6: `cleanup_expired_approvals` is a no-op that always returns 0 and
removes nothing, because `ApprovalRequest` declares no `created_at`
field, so the `hasattr(approval, 'created_at')` guard is false on every
pending request regardless of `max_age_days` and of how old the request
actually is. -/
theorem cleanup_expired_approvals_noop (engine : ApprovalEngine)
    (now max_age_days : Int) :
    cleanup_expired_approvals engine now max_age_days = (0, engine) := by
  obtain ⟨pa, po, us⟩ := engine
  simp [cleanup_expired_approvals, created_at_attr]

theorem audit_trail_loop_cons (q : TrailQuery) (line : LogLine)
    (rest : List LogLine) (acc : List AuditEntry) :
    audit_trail_loop q (line :: rest) acc =
      match line.entry with
      | ParseOutcome.caught => audit_trail_loop q rest acc
      | ParseOutcome.uncaught => Except.error PyError.uncaught
      | ParseOutcome.ok e =>
        if passes_filters q e then
          if ((e :: acc).length : Int) ≥ q.limit then Except.ok (e :: acc).reverse
          else audit_trail_loop q rest (e :: acc)
        else audit_trail_loop q rest acc := by
  rw [audit_trail_loop]

theorem audit_trail_loop_length_le (q : TrailQuery) (log : List LogLine) :
    ∀ (acc res : List AuditEntry), (acc.length : Int) < q.limit →
      audit_trail_loop q log acc = Except.ok res →
      ((res.length : Int) ≤ q.limit) := by
  induction log with
  | nil =>
    intro acc res h hres
    rw [audit_trail_loop] at hres
    obtain h' := Except.ok.inj hres
    rw [← h', List.length_reverse]
    exact le_of_lt h
  | cons line rest ih =>
    intro acc res h hres
    rw [audit_trail_loop_cons] at hres
    cases hl : line.entry with
    | caught =>
      rw [hl] at hres
      exact ih acc res h hres
    | uncaught =>
      rw [hl] at hres
      exact absurd hres (by simp)
    | ok e =>
      rw [hl] at hres
      dsimp only at hres
      by_cases hp : passes_filters q e = true
      · rw [if_pos hp] at hres
        by_cases hbreak : ((e :: acc).length : Int) ≥ q.limit
        · rw [if_pos hbreak] at hres
          obtain h' := Except.ok.inj hres
          rw [← h', List.length_reverse, List.length_cons]
          push_cast
          omega
        · rw [if_neg hbreak] at hres
          exact ih (e :: acc) res (lt_of_not_ge hbreak) hres
      · rw [if_neg hp] at hres
        exact ih acc res h hres

theorem audit_trail_loop_filters (q : TrailQuery) (log : List LogLine) :
    ∀ (acc res : List AuditEntry), (∀ e ∈ acc, passes_filters q e = true) →
      audit_trail_loop q log acc = Except.ok res →
      ∀ e ∈ res, passes_filters q e = true := by
  induction log with
  | nil =>
    intro acc res h hres e he
    rw [audit_trail_loop] at hres
    obtain h' := Except.ok.inj hres
    rw [← h'] at he
    exact h e (List.mem_reverse.mp he)
  | cons line rest ih =>
    intro acc res h hres e he
    rw [audit_trail_loop_cons] at hres
    cases hl : line.entry with
    | caught =>
      rw [hl] at hres
      exact ih acc res h hres e he
    | uncaught =>
      rw [hl] at hres
      exact absurd hres (by simp)
    | ok e' =>
      rw [hl] at hres
      dsimp only at hres
      by_cases hp : passes_filters q e' = true
      · have hacc : ∀ x ∈ e' :: acc, passes_filters q x = true := by
          intro x hx
          rcases List.mem_cons.mp hx with hx | hx
          · rw [hx]
            exact hp
          · exact h x hx
        rw [if_pos hp] at hres
        by_cases hbreak : ((e' :: acc).length : Int) ≥ q.limit
        · rw [if_pos hbreak] at hres
          obtain h' := Except.ok.inj hres
          rw [← h'] at he
          exact hacc e (List.mem_reverse.mp he)
        · rw [if_neg hbreak] at hres
          exact ih (e' :: acc) res hacc hres e he
      · rw [if_neg hp] at hres
        exact ih acc res h hres e he

theorem audit_trail_loop_sources (q : TrailQuery) (log : List LogLine) :
    ∀ (acc res : List AuditEntry),
      audit_trail_loop q log acc = Except.ok res →
      ∀ e ∈ res, e ∈ acc ∨ ∃ l ∈ log, l.entry = ParseOutcome.ok e := by
  induction log with
  | nil =>
    intro acc res hres e he
    rw [audit_trail_loop] at hres
    obtain h' := Except.ok.inj hres
    rw [← h'] at he
    exact Or.inl (List.mem_reverse.mp he)
  | cons line rest ih =>
    intro acc res hres e he
    rw [audit_trail_loop_cons] at hres
    cases hl : line.entry with
    | caught =>
      rw [hl] at hres
      rcases ih acc res hres e he with h | ⟨l, hmem, hle⟩
      · exact Or.inl h
      · exact Or.inr ⟨l, List.mem_cons_of_mem _ hmem, hle⟩
    | uncaught =>
      rw [hl] at hres
      exact absurd hres (by simp)
    | ok e' =>
      rw [hl] at hres
      dsimp only at hres
      by_cases hp : passes_filters q e' = true
      · rw [if_pos hp] at hres
        by_cases hbreak : ((e' :: acc).length : Int) ≥ q.limit
        · rw [if_pos hbreak] at hres
          obtain h' := Except.ok.inj hres
          rw [← h'] at he
          rcases List.mem_cons.mp (List.mem_reverse.mp he) with h | h
          · exact Or.inr ⟨line, List.mem_cons_self _ _, by rw [hl, h]⟩
          · exact Or.inl h
        · rw [if_neg hbreak] at hres
          rcases ih (e' :: acc) res hres e he with h | ⟨l, hmem, hle⟩
          · rcases List.mem_cons.mp h with h' | h'
            · exact Or.inr ⟨line, List.mem_cons_self _ _, by rw [hl, h']⟩
            · exact Or.inl h'
          · exact Or.inr ⟨l, List.mem_cons_of_mem _ hmem, hle⟩
      · rw [if_neg hp] at hres
        rcases ih acc res hres e he with h | ⟨l, hmem, hle⟩
        · exact Or.inl h
        · exact Or.inr ⟨l, List.mem_cons_of_mem _ hmem, hle⟩

theorem audit_trail_loop_total (q : TrailQuery) (log : List LogLine) :
    ∀ acc : List AuditEntry,
      (∀ l ∈ log, l.entry ≠ ParseOutcome.uncaught) →
      ∃ res, audit_trail_loop q log acc = Except.ok res := by
  induction log with
  | nil =>
    intro acc _
    exact ⟨acc.reverse, by rw [audit_trail_loop]⟩
  | cons line rest ih =>
    intro acc h
    have hline := h line (List.mem_cons_self _ _)
    have hrest : ∀ l ∈ rest, l.entry ≠ ParseOutcome.uncaught :=
      fun l hl => h l (List.mem_cons_of_mem _ hl)
    cases hl : line.entry with
    | uncaught => exact absurd hl hline
    | caught =>
      obtain ⟨res, hres⟩ := ih acc hrest
      refine ⟨res, ?_⟩
      rw [audit_trail_loop_cons, hl]
      exact hres
    | ok e =>
      by_cases hp : passes_filters q e = true
      · by_cases hbreak : ((e :: acc).length : Int) ≥ q.limit
        · refine ⟨(e :: acc).reverse, ?_⟩
          rw [audit_trail_loop_cons, hl]
          dsimp only
          rw [if_pos hp, if_pos hbreak]
        · obtain ⟨res, hres⟩ := ih (e :: acc) hrest
          refine ⟨res, ?_⟩
          rw [audit_trail_loop_cons, hl]
          dsimp only
          rw [if_pos hp, if_neg hbreak]
          exact hres
      · obtain ⟨res, hres⟩ := ih acc hrest
        refine ⟨res, ?_⟩
        rw [audit_trail_loop_cons, hl]
        dsimp only
        rw [if_neg hp]
        exact hres

/-- C7 amended: for every positive limit, a COMPLETED `get_audit_trail`
query returns at most `limit` entries, each passing all the supplied
filters (in the source's sense: a supplied empty-string user,
resource_type or action filter never rejects, by Python truthiness) and
each coming from a line that parsed; a line raising
`json.JSONDecodeError` — the only exception the handler catches — is
skipped without affecting the result; but a line that is valid JSON and
fails `AuditEntry` validation raises an exception the handler does not
catch and ABORTS the whole query; when no line raises an uncaught
exception the query completes. -/
theorem get_audit_trail_spec (log : List LogLine) (q : TrailQuery)
    (hlim : 1 ≤ q.limit) :
    (∀ res, get_audit_trail log q = Except.ok res →
      ((res.length : Int) ≤ q.limit ∧
        (∀ e ∈ res, passes_filters q e = true) ∧
        (∀ e ∈ res, ∃ l ∈ log, l.entry = ParseOutcome.ok e))) ∧
    (∀ line : LogLine, line.entry = ParseOutcome.caught →
      get_audit_trail (line :: log) q = get_audit_trail log q) ∧
    (∀ line : LogLine, line.entry = ParseOutcome.uncaught →
      get_audit_trail (line :: log) q = Except.error PyError.uncaught) ∧
    ((∀ l ∈ log, l.entry ≠ ParseOutcome.uncaught) →
      ∃ res, get_audit_trail log q = Except.ok res) := by
  refine ⟨fun res hres => ⟨?_, ?_, ?_⟩, fun line hline => ?_,
    fun line hline => ?_, fun h => ?_⟩
  · exact audit_trail_loop_length_le q log [] res (by simpa using hlim) hres
  · exact audit_trail_loop_filters q log [] res (by simp) hres
  · intro e he
    rcases audit_trail_loop_sources q log [] res hres e he with h | h
    · simp at h
    · exact h
  · rw [get_audit_trail, get_audit_trail, audit_trail_loop, hline]
  · rw [get_audit_trail, audit_trail_loop, hline]
  · exact audit_trail_loop_total q log [] h

/-- One well-formed audit entry authored by "bob". -/
def bobEntry : AuditEntry :=
  { id := "e1", timestamp := 0, user := "bob", action := "api_access",
    resource_type := "endpoint", resource_id := "/metrics", details := [] }

def trailCxLog : List LogLine :=
  [{ entry := ParseOutcome.ok bobEntry, timestamp := ParseOutcome.ok 0 }]

def trailCxQuery : TrailQuery := { user := some "", limit := 0 }

/-- Models the persisted line `"abc"`: valid JSON (a bare string), so not
a `json.JSONDecodeError`; `AuditEntry(**data)` raises TypeError in
`get_audit_trail` and `data["timestamp"]` raises TypeError in
`verify_integrity`, and neither handler catches TypeError. -/
def strLine : LogLine :=
  { entry := ParseOutcome.uncaught, timestamp := ParseOutcome.uncaught }

/-- C7 counterexample: with `limit = 0` and the supplied user filter `""`
the one-line log still yields one entry — neither bounded by the limit
(the `len(entries) >= limit` break runs only after the append) nor
filtered by the supplied user; and a JSON-valid line failing
`AuditEntry` validation aborts the query instead of being skipped,
because the handler catches only `json.JSONDecodeError`. -/
theorem get_audit_trail_cx :
    get_audit_trail trailCxLog trailCxQuery = Except.ok [bobEntry] ∧
    ¬((([bobEntry] : List AuditEntry).length : Int) ≤ trailCxQuery.limit) ∧
    trailCxQuery.user = some "" ∧ bobEntry.user ≠ "" ∧
    get_audit_trail [strLine] { : TrailQuery} =
      Except.error PyError.uncaught := by
  exact ⟨rfl, by decide, rfl, by decide, rfl⟩

/-- Witness for C7: the one-line log with the default query completes
with a result. -/
theorem get_audit_trail_spec_witness :
    ∃ res, get_audit_trail trailCxLog { : TrailQuery} = Except.ok res :=
  (get_audit_trail_spec trailCxLog { : TrailQuery} (by decide)).2.2.2
    (by decide)

theorem integrity_step_ok_counts (s : IntegrityState) (line : LogLine)
    (s' : IntegrityState) (h : integrity_step s line = Except.ok s') :
    s'.total = s.total + 1 ∧
    s'.corrupted = s.corrupted +
      (if line.timestamp = ParseOutcome.caught then 1 else 0) := by
  cases ht : line.timestamp with
  | uncaught =>
    rw [integrity_step, ht] at h
    exact absurd h (by simp)
  | caught =>
    rw [integrity_step, ht] at h
    obtain h' := Except.ok.inj h
    rw [← h']
    simp
  | ok t =>
    rw [integrity_step, ht] at h
    obtain h' := Except.ok.inj h
    rw [← h']
    simp [ht]

theorem integrity_scan_counts (log : List LogLine) :
    ∀ s : IntegrityState,
      (∀ l ∈ log, l.timestamp ≠ ParseOutcome.uncaught) →
      ∃ s', integrity_scan log s = Except.ok s' ∧
        s'.total = s.total + log.length ∧
        s'.corrupted = s.corrupted +
          (log.filter (fun l => l.timestamp = ParseOutcome.caught)).length := by
  induction log with
  | nil =>
    intro s _
    exact ⟨s, rfl, by simp, by simp⟩
  | cons line rest ih =>
    intro s h
    have hline := h line (List.mem_cons_self _ _)
    have hrest : ∀ l ∈ rest, l.timestamp ≠ ParseOutcome.uncaught :=
      fun l hl => h l (List.mem_cons_of_mem _ hl)
    have hstep : ∃ s1, integrity_step s line = Except.ok s1 := by
      cases ht : line.timestamp with
      | uncaught => exact absurd ht hline
      | caught => exact ⟨_, by rw [integrity_step, ht]⟩
      | ok t => exact ⟨_, by rw [integrity_step, ht]⟩
    obtain ⟨s1, hs1⟩ := hstep
    obtain ⟨hc1, hc2⟩ := integrity_step_ok_counts s line s1 hs1
    obtain ⟨s', hs', h1, h2⟩ := ih s1 hrest
    refine ⟨s', ?_, ?_, ?_⟩
    · rw [integrity_scan, hs1]
      exact hs'
    · rw [h1, hc1, List.length_cons]
      omega
    · rw [h2, hc2]
      by_cases hc : line.timestamp = ParseOutcome.caught
      · simp [List.filter_cons, hc]
        omega
      · simp [List.filter_cons, hc]

/-- C8 amended: on every log in which no line raises an exception outside
the handler's `(json.JSONDecodeError, KeyError, ValueError)`,
`verify_integrity` returns total equal to the number of lines, corrupted
equal to the number of lines raising one of those caught exceptions
(failing to parse or lacking a valid timestamp), and
`integrity_score = (total - corrupted) / total` when total > 0; the
empty log returns score 0 and 0 total entries without dividing by zero.
A line raising an uncaught exception (e.g. TypeError from a JSON-valid
non-dict line) instead aborts the scan — see the counterexample. -/
theorem verify_integrity_spec (log : List LogLine)
    (h : ∀ l ∈ log, l.timestamp ≠ ParseOutcome.uncaught) :
    (∃ r, verify_integrity log = Except.ok r ∧
      r.total_entries = log.length ∧
      r.corrupted_entries =
        (log.filter (fun l => l.timestamp = ParseOutcome.caught)).length ∧
      (0 < log.length →
        r.integrity_score =
          ((log.length : ℚ) -
              ((log.filter
                  (fun l => l.timestamp = ParseOutcome.caught)).length : ℚ)) /
            (log.length : ℚ))) ∧
    verify_integrity ([] : List LogLine) =
      Except.ok
        { total_entries := 0, corrupted_entries := 0, integrity_score := 0,
          earliest := none, latest := none } := by
  refine ⟨?_, rfl⟩
  obtain ⟨s', hs', h1, h2⟩ := integrity_scan_counts log ⟨0, 0, none, none⟩ h
  rw [Nat.zero_add] at h1 h2
  refine ⟨{ total_entries := s'.total
            corrupted_entries := s'.corrupted
            integrity_score :=
              if s'.total > 0 then
                ((s'.total : ℚ) - (s'.corrupted : ℚ)) / (s'.total : ℚ)
              else 0
            earliest := s'.earliest
            latest := s'.latest }, ?_, ?_, ?_, ?_⟩
  · rw [verify_integrity, hs']
  · exact h1
  · exact h2
  · intro hpos
    dsimp only
    rw [h1, h2, if_pos hpos]

/-- C8 counterexample: the JSON-valid line `"abc"` raises TypeError at
`data["timestamp"]`, which the handler (catching only JSONDecodeError,
KeyError and ValueError) does not catch, so `verify_integrity` aborts
with the exception instead of returning the claimed counts. -/
theorem verify_integrity_cx :
    verify_integrity [strLine] = Except.error PyError.uncaught ∧
    ¬∃ r : IntegrityReport, verify_integrity [strLine] = Except.ok r := by
  refine ⟨rfl, ?_⟩
  rintro ⟨r, hr⟩
  have h0 : verify_integrity [strLine] = Except.error PyError.uncaught := rfl
  rw [h0] at hr
  exact Except.noConfusion hr

def integrityLog : List LogLine :=
  [{ entry := ParseOutcome.caught, timestamp := ParseOutcome.ok 3 },
   { entry := ParseOutcome.caught, timestamp := ParseOutcome.caught }]

/-- Witness for C8: a log with one valid line and one line raising a
caught exception scores (2 - 1) / 2. -/
theorem verify_integrity_spec_witness :
    (∃ r, verify_integrity integrityLog = Except.ok r ∧
      r.total_entries = integrityLog.length ∧
      r.corrupted_entries =
        (integrityLog.filter
          (fun l => l.timestamp = ParseOutcome.caught)).length ∧
      (0 < integrityLog.length →
        r.integrity_score =
          ((integrityLog.length : ℚ) -
              ((integrityLog.filter
                  (fun l => l.timestamp = ParseOutcome.caught)).length : ℚ)) /
            (integrityLog.length : ℚ))) ∧
    verify_integrity ([] : List LogLine) =
      Except.ok
        { total_entries := 0, corrupted_entries := 0, integrity_score := 0,
          earliest := none, latest := none } :=
  verify_integrity_spec integrityLog (by decide)

/-- Whether the static role table grants `permission` on `resource`:
the role's dict must carry the resource key and list the permission. -/
def role_grants (role : UserRole) (resource : Resource)
    (permission : Permission) : Bool :=
  match role_permissions role resource with
  | none => false
  | some perms => permission ∈ perms

/-- C9 amended: `check_permission` denies when the user is unregistered;
denies on a role-table miss before per-user overrides are ever
consulted; and, when the role table grants and the resource is metric or
dimension with a NONEMPTY resource_id supplied, equals the domain-access
check (an empty-string resource_id is falsy in Python, so the role-table
grant stands).  Domain access: admins always pass; otherwise access
holds iff the metric's assigned domain is absent or the empty string
(both falsy, hence ungated), or is in the user's teams, or the user is a
registered steward of that domain. -/
theorem check_permission_spec (m : AccessControlManager) (username : String)
    (resource : Resource) (permission : Permission) (ridOpt : Option String)
    (rid : String) (user : User) :
    (dictLookup m.users username = none →
      check_permission m username resource permission ridOpt = false) ∧
    (dictLookup m.users username = some user →
      role_grants user.role resource permission = false →
      check_permission m username resource permission ridOpt = false) ∧
    (dictLookup m.users username = some user →
      role_grants user.role resource permission = true →
      (resource = Resource.metric ∨ resource = Resource.dimension) →
      rid ≠ "" →
      check_permission m username resource permission (some rid) =
        check_domain_access m user rid) ∧
    (user.role = UserRole.admin → check_domain_access m user rid = true) ∧
    (user.role ≠ UserRole.admin →
      (check_domain_access m user rid = true ↔
        dictLookup m.metric_domains rid = none ∨
        dictLookup m.metric_domains rid = some "" ∨
        ∃ domain, dictLookup m.metric_domains rid = some domain ∧
          (domain ∈ user.teams ∨
            ∃ stewards, dictLookup m.domain_stewards domain = some stewards ∧
              user.username ∈ stewards))) := by
  refine ⟨fun hu => ?_, fun hu hrg => ?_, fun hu hrg hres hrid => ?_,
    fun hadm => ?_, fun hadm => ?_⟩
  · simp [check_permission, hu]
  · rw [check_permission, hu]
    dsimp only
    rw [role_grants] at hrg
    cases hrp : role_permissions user.role resource with
    | none => simp
    | some perms =>
      rw [hrp] at hrg
      dsimp only at hrg ⊢
      rw [if_pos (of_decide_eq_false hrg)]
  · rw [check_permission, hu]
    dsimp only
    rw [role_grants] at hrg
    cases hrp : role_permissions user.role resource with
    | none => exact absurd hrg (by simp [hrp])
    | some perms =>
      rw [hrp] at hrg
      dsimp only at hrg ⊢
      have hmem : permission ∈ perms := of_decide_eq_true hrg
      rw [if_neg (not_not_intro hmem), if_pos]
      · rw [Option.getD_some]
      · rw [Bool.and_eq_true, decide_eq_true_eq, decide_eq_true_eq,
          Option.getD_some]
        exact ⟨hres, hrid⟩
  · simp [check_domain_access, hadm]
  · rw [check_domain_access, if_neg hadm]
    cases hd : dictLookup m.metric_domains rid with
    | none => simp
    | some domain =>
      dsimp only
      by_cases hde : domain = ""
      · subst hde
        simp
      · rw [if_neg hde]
        by_cases hteam : domain ∈ user.teams
        · simp [hteam, hde]
        · rw [if_neg hteam]
          cases hds : dictLookup m.domain_stewards domain with
          | none => simp [hde, hteam, hds]
          | some stewards => simp [hde, hteam, hds]

def cxManager : AccessControlManager :=
  { users := [("alice", alice)]
    domain_stewards := []
    metric_domains := [("", "ops"), ("m", "")] }

/-- C9 counterexample: querying the metric named `""` with a supplied
resource_id skips the domain check entirely (Python truthiness), so
`check_permission` grants although the domain-access check denies; and
the metric `"m"` is assigned the empty-string domain, which the analyst
is neither teamed with nor steward of, yet domain access is granted. -/
theorem check_permission_cx :
    (check_permission cxManager "alice" Resource.metric Permission.read
        (some "") = true ∧
      check_domain_access cxManager alice "" = false) ∧
    (check_domain_access cxManager alice "m" = true ∧
      dictLookup cxManager.metric_domains "m" = some "" ∧
      ¬("" ∈ alice.teams) ∧
      dictLookup cxManager.domain_stewards "" = none) := by
  decide

def rbacManager : AccessControlManager :=
  { users := [("bob", bob)]
    domain_stewards := []
    metric_domains := [("revenue", "finance")] }

/-- Witness for C9: a steward on the finance team asking for approve on
the finance metric goes through the domain-access check. -/
theorem check_permission_spec_witness :
    check_permission rbacManager "bob" Resource.metric Permission.approve
        (some "revenue") =
      check_domain_access rbacManager bob "revenue" :=
  (check_permission_spec rbacManager "bob" Resource.metric Permission.approve
    (some "revenue") "revenue" bob).2.2.1 (by decide) (by decide)
    (Or.inl rfl) (by decide)

/-- C10: `check_permission` never depends on the user's per-user
`permissions` overrides field: two users identical except for that field
get identical decisions on every query against the same manager state;
the overrides can neither grant access denied by the role table or the
domain check, nor revoke access they grant. -/
theorem check_permission_ignores_overrides (m : AccessControlManager)
    (username : String) (resource : Resource) (permission : Permission)
    (ridOpt : Option String) (user : User)
    (ps : List (String × List String)) :
    check_permission { m with users := dictInsert m.users username user }
        username resource permission ridOpt =
      check_permission
        { m with users :=
            dictInsert m.users username { user with permissions := ps } }
        username resource permission ridOpt := by
  obtain ⟨un, em, ro, tm, pe⟩ := user
  rw [check_permission, check_permission, dictLookup_insert_self,
    dictLookup_insert_self]
  dsimp only
  cases hrp : role_permissions ro resource with
  | none => rfl
  | some perms =>
    dsimp only
    by_cases hmem : permission ∈ perms
    · rw [if_neg (not_not_intro hmem), if_neg (not_not_intro hmem)]
      by_cases hdom : (decide (resource = Resource.metric ∨
          resource = Resource.dimension) && decide (ridOpt.getD "" ≠ "")) = true
      · rw [if_pos hdom, if_pos hdom]
        rfl
      · rw [if_neg hdom, if_neg hdom]
        cases dictLookup pe resource.value <;>
          cases dictLookup ps resource.value <;> simp
    · rw [if_pos hmem, if_pos hmem]

end OpenCSL
